import Mathlib

/-!
Shallow embedding of the yt-dlp AudioNormalize postprocessor plugin
(src/yt_dlp_plugins/postprocessor/audio_normalize.py) and proofs about it.

Python dictionaries with string keys are embedded as association lists
with insertion-order semantics (`dictInsert` overwrites in place, appends
fresh keys at the end; `dictGet` returns the first match).  Python scalar
values are embedded by `PyVal`; Python floats appear in the claims only as
exact decimal literals, so they are embedded as exact decimal numbers
(`Dec`: an integer mantissa scaled by a power of ten) rather than binary
floating point, which no claim exercises.
-/

namespace AudioNormalize

/-- One entry per Python dict slot: key paired with value. -/
abbrev Dict (α : Type) := List (String × α)

/-- Python dict lookup `d.get(k)`: first entry whose key matches. -/
def dictGet {α : Type} : Dict α → String → Option α
  | [], _ => none
  | (k', v) :: rest, k => if k' = k then some v else dictGet rest k

/-- Python dict assignment `d[k] = v`: overwrite in place if the key
exists, otherwise append at the end (insertion order). -/
def dictInsert {α : Type} : Dict α → String → α → Dict α
  | [], k, v => [(k, v)]
  | (k', v') :: rest, k, v =>
    if k' = k then (k, v) :: rest else (k', v') :: dictInsert rest k v

/-- File deletion (`Path.unlink`): drop every entry with the given key. -/
def dictRemove {α : Type} : Dict α → String → Dict α
  | [], _ => []
  | (k', v) :: rest, k =>
    if k' = k then dictRemove rest k else (k', v) :: dictRemove rest k

/-- The keys of a dict, in order. -/
def keysOf {α : Type} (d : Dict α) : List String :=
  d.map Prod.fst

/-- A dict is well-formed when no key occurs twice. -/
def NodupKeys {α : Type} (d : Dict α) : Prop :=
  (keysOf d).Nodup

/-- Left-biased choice on optional values (used to state precedence). -/
def optOr {α : Type} : Option α → Option α → Option α
  | some v, _ => some v
  | none, b => b

/-- Python `base.update(upd)`: fold the update dict into the base dict. -/
def updateDict {α : Type} (base upd : Dict α) : Dict α :=
  upd.foldl (fun acc e => dictInsert acc e.1 e.2) base

theorem dictGet_insert_self {α : Type} (d : Dict α) (k : String) (v : α) :
    dictGet (dictInsert d k v) k = some v := by
  induction d with
  | nil => simp [dictInsert, dictGet]
  | cons e rest ih =>
    obtain ⟨a, b⟩ := e
    by_cases ha : a = k
    · subst ha
      simp [dictInsert, dictGet]
    · simp [dictInsert, ha, dictGet, ih]

theorem dictGet_insert_ne {α : Type} (d : Dict α) (k k' : String) (v : α)
    (h : k' ≠ k) : dictGet (dictInsert d k v) k' = dictGet d k' := by
  have hkk : ¬(k = k') := fun hh => h hh.symm
  induction d with
  | nil => simp [dictInsert, dictGet, hkk]
  | cons e rest ih =>
    obtain ⟨a, b⟩ := e
    by_cases ha : a = k
    · subst ha
      simp [dictInsert, dictGet, hkk]
    · simp [dictInsert, ha, dictGet, ih]

theorem dictGet_remove_self {α : Type} (d : Dict α) (k : String) :
    dictGet (dictRemove d k) k = none := by
  induction d with
  | nil => rfl
  | cons e rest ih =>
    obtain ⟨a, b⟩ := e
    by_cases ha : a = k
    · simp [dictRemove, ha, ih]
    · simp [dictRemove, ha, dictGet, ih]

theorem dictGet_remove_ne {α : Type} (d : Dict α) (k k' : String)
    (h : k' ≠ k) : dictGet (dictRemove d k) k' = dictGet d k' := by
  induction d with
  | nil => rfl
  | cons e rest ih =>
    obtain ⟨a, b⟩ := e
    by_cases ha : a = k
    · subst ha
      have hak : ¬(a = k') := fun hh => h hh.symm
      simp [dictRemove, dictGet, hak, ih]
    · simp [dictRemove, ha, dictGet, ih]

theorem mem_keys_insert {α : Type} (d : Dict α) (k a : String) (v : α) :
    a ∈ keysOf (dictInsert d k v) ↔ a = k ∨ a ∈ keysOf d := by
  induction d with
  | nil => simp [dictInsert, keysOf]
  | cons e rest ih =>
    obtain ⟨a', b⟩ := e
    by_cases ha : a' = k
    · subst ha
      simp only [dictInsert, if_pos rfl, keysOf, List.map_cons, List.mem_cons,
        if_true, eq_self_iff_true]
      tauto
    · simp only [dictInsert, if_neg ha, keysOf, List.map_cons,
        List.mem_cons] at ih ⊢
      rw [ih]
      tauto

theorem dictGet_eq_none_of_not_mem {α : Type} (d : Dict α) (k : String) :
    k ∉ keysOf d → dictGet d k = none := by
  induction d with
  | nil => intro _; rfl
  | cons e rest ih =>
    obtain ⟨a, b⟩ := e
    intro h
    simp only [keysOf, List.map_cons, List.mem_cons, not_or] at h
    have hak : ¬(a = k) := fun hh => h.1 hh.symm
    simp only [dictGet, if_neg hak]
    exact ih h.2

theorem nodupKeys_insert {α : Type} (d : Dict α) (k : String) (v : α) :
    NodupKeys d → NodupKeys (dictInsert d k v) := by
  induction d with
  | nil => intro _; simp [dictInsert, NodupKeys, keysOf]
  | cons e rest ih =>
    obtain ⟨a, b⟩ := e
    intro h
    simp only [NodupKeys, keysOf, List.map_cons, List.nodup_cons] at h
    by_cases ha : a = k
    · subst ha
      have hred : dictInsert ((a, b) :: rest) a v = (a, v) :: rest := by
        simp [dictInsert]
      rw [hred]
      simpa [NodupKeys, keysOf, List.nodup_cons] using h
    · have hrest := ih h.2
      simp only [dictInsert, if_neg ha, NodupKeys, keysOf, List.map_cons,
        List.nodup_cons]
      refine ⟨fun hmem => ?_, hrest⟩
      rcases (mem_keys_insert rest k a v).1 hmem with h1 | h1
      · exact ha h1
      · exact h.1 h1

theorem dictGet_updateDict {α : Type} (base upd : Dict α) (k : String) :
    NodupKeys upd →
    dictGet (updateDict base upd) k = optOr (dictGet upd k) (dictGet base k) := by
  induction upd generalizing base with
  | nil => intro _; simp [updateDict, dictGet, optOr]
  | cons e rest ih =>
    intro h
    simp only [NodupKeys, keysOf, List.map_cons, List.nodup_cons] at h
    have step : updateDict base (e :: rest) =
        updateDict (dictInsert base e.1 e.2) rest := rfl
    rw [step, ih _ h.2]
    by_cases hk : k = e.1
    · subst hk
      have hnone : dictGet rest e.1 = none :=
        dictGet_eq_none_of_not_mem rest e.1 (by simpa [keysOf] using h.1)
      rw [hnone]
      simp [dictGet, optOr, dictGet_insert_self]
    · rw [dictGet_insert_ne base e.1 k e.2 hk]
      have hek : ¬(e.1 = k) := fun hh => hk hh.symm
      simp [dictGet, hek]

/-! ## Python scalar values and type annotations -/

/-- Exact decimal number `mant / 10 ^ dexp`, the embedding of the Python
float values occurring in this program (all of which are exact decimal
literals such as `-14.0` or `128.5`). -/
structure Dec where
  mant : Int
  dexp : Nat
  deriving DecidableEq

/-- The four scalar types the plugin can coerce flag values to
(`str`, `float`, `int`, `bool` in the source). -/
inductive Ty where
  | str
  | float
  | int
  | bool
  deriving DecidableEq

/-- A typed Python scalar value, as stored in the produced kwargs dicts. -/
inductive PyVal where
  | vStr (s : String)
  | vFloat (d : Dec)
  | vInt (n : Int)
  | vBool (b : Bool)
  deriving DecidableEq

/-- A value inside a `Literal[...]` annotation: string, int, float, bool
or the sole `None` literal. -/
inductive PyLit where
  | ls (s : String)
  | li (n : Int)
  | lf (d : Dec)
  | lb (b : Bool)
  | lnone
  deriving DecidableEq

/-- A member of a union annotation.  Python flattens unions, so a union
member is never itself a union; it can be a scalar class, `NoneType`, some
other class, a `Literal[...]` (with at least one value, as Python requires),
a `list[...]` type, or some other subscripted generic. -/
inductive UHint where
  | scalar (t : Ty)
  | noneType
  | otherClass
  | lit (v : PyLit) (vs : List PyLit)
  | listTy
  | otherGeneric
  deriving DecidableEq

/-- A type annotation as seen by `_extract_scalar_type`: a union member
shape, a (flattened) union `X | Y | ...`, or a non-type object. -/
inductive Hint where
  | scalar (t : Ty)
  | noneType
  | otherClass
  | lit (v : PyLit) (vs : List PyLit)
  | listTy
  | unionOf (hs : List UHint)
  | otherGeneric
  | nonType
  deriving DecidableEq

/-- `type(first)` on a literal value: the runtime type if it is one of the
four scalars, else the fall-back `str` (the `None` literal is not a scalar
value). -/
def litType : PyLit → Ty
  | .ls _ => .str
  | .li _ => .int
  | .lf _ => .float
  | .lb _ => .bool
  | .lnone => .str

/-- `_extract_scalar_type` on a union member (the recursive call of the
source function; union members are never unions because Python flattens
them). -/
def extractMember : UHint → Option Ty
  | .scalar t => some t
  | .noneType => some .str
  | .otherClass => some .str
  | .lit v _ => some (litType v)
  | .listTy => none
  | .otherGeneric => some .str

/-- The `for arg in get_args(hint)` loop of `_extract_scalar_type`: return
the extraction of the first non-`NoneType` member; if none exists the
function falls through to `return str`. -/
def unionScan : List UHint → Option Ty
  | [] => some .str
  | h :: t => if h = UHint.noneType then unionScan t else extractMember h

/-- `AudioNormalizePP._extract_scalar_type`: reduce a type annotation to one
of the four scalar types, or `none` for list-typed annotations. -/
def extractScalarType : Hint → Option Ty
  | .scalar t => some t
  | .noneType => some .str
  | .otherClass => some .str
  | .lit v _ => some (litType v)
  | .listTy => none
  | .unionOf hs => unionScan hs
  | .otherGeneric => some .str
  | .nonType => some .str

/-- A union member that stands for a collection (list) type. -/
def memberCollection : UHint → Bool
  | .listTy => true
  | _ => false

/-- Whether the `for` loop over union members reaches a collection type. -/
def unionScanCollection : List UHint → Bool
  | [] => false
  | h :: t => if h = UHint.noneType then unionScanCollection t
              else memberCollection h

/-- The annotations the spec calls collection-typed: a `list[...]` type, or
an optional/union type whose extraction target is a `list[...]` type. -/
def collectionTyped : Hint → Bool
  | .listTy => true
  | .unionOf hs => unionScanCollection hs
  | _ => false

/-! ## Parameter map builder -/

/-- `AudioNormalizePP._SHORT_FLAGS`: hand-maintained short flag to
parameter name table, in source order. -/
def SHORT_FLAGS : List (String × String) :=
  [("-nt", "normalization_type"),
   ("-t", "target_level"),
   ("-p", "print_stats"),
   ("-lrt", "loudness_range_target"),
   ("-tp", "true_peak"),
   ("-c:a", "audio_codec"),
   ("-b:a", "audio_bitrate"),
   ("-ar", "sample_rate"),
   ("-ac", "audio_channels"),
   ("-koa", "keep_original_audio"),
   ("-prf", "pre_filter"),
   ("-pof", "post_filter"),
   ("-vn", "video_disable"),
   ("-c:v", "video_codec"),
   ("-sn", "subtitle_disable"),
   ("-mn", "metadata_disable"),
   ("-cn", "chapters_disable"),
   ("-ofmt", "output_format"),
   ("-ext", "extension"),
   ("-d", "debug"),
   ("-n", "dry_run"),
   ("-pr", "progress")]

/-- `AudioNormalizePP._TYPE_OVERRIDES`: forced scalar types for parameters
whose annotation diverges from actual use. -/
def TYPE_OVERRIDES : Dict Ty :=
  [("audio_bitrate", Ty.str)]

/-- `param_name.replace("_", "-")` specialised to the single-character
pattern the source uses: replace each underscore by a dash. -/
def dashName (s : String) : String :=
  String.mk (s.data.map (fun c => if c = '_' then '-' else c))

/-- The derived long flag `"--" + param_name.replace("_", "-")`. -/
def longFlag (name : String) : String :=
  "--" ++ dashName name

/-- An entry of the parameter map: (parameter name, scalar type). -/
abbrev ParamMap := Dict (String × Ty)

/-- First loop of `_build_param_map`: for each annotated parameter other
than `return`, register the long flag with the extracted (possibly
overridden) type; list-typed parameters are dropped. -/
def phase1Go : List (String × Hint) → ParamMap → ParamMap
  | [], pm => pm
  | (pname, hint) :: rest, pm =>
    phase1Go rest
      (if pname = "return" then pm
       else
         match extractScalarType hint with
         | none => pm
         | some st =>
           dictInsert pm (longFlag pname)
             (pname, (dictGet TYPE_OVERRIDES pname).getD st))

/-- Second loop of `_build_param_map`: alias each short flag to the entry
already registered for its long flag, skipping short flags whose long flag
is absent. -/
def phase2Go : List (String × String) → ParamMap → ParamMap
  | [], pm => pm
  | (flag, pname) :: rest, pm =>
    phase2Go rest
      (match dictGet pm (longFlag pname) with
       | some entry => dictInsert pm flag entry
       | none => pm)

/-- `AudioNormalizePP._build_param_map`, as a function of the constructor
annotations of the external normalizer (`get_type_hints` output, an
ordered name-to-annotation dict). -/
def buildParamMap (hints : List (String × Hint)) : ParamMap :=
  phase2Go SHORT_FLAGS (phase1Go hints [])

/-- The first character of a string, if any. -/
def firstChar (s : String) : Option Char :=
  s.data.head?

/-- Shape of every short flag: a dash followed by a non-dash character. -/
def isShortKey (s : String) : Bool :=
  match s.data with
  | c0 :: c1 :: _ => c0 == '-' && c1 != '-'
  | _ => false

/-- Shape of every derived long flag: two leading dashes. -/
def isLongKey (s : String) : Bool :=
  match s.data with
  | c0 :: c1 :: _ => c0 == '-' && c1 == '-'
  | _ => false

/-- Whether a string starts with a dash. -/
def startsDash (s : String) : Bool :=
  firstChar s == some '-'

/-! ## String-to-value coercion (`typ(str_val)` and `str.lower()`) -/

/-- ASCII lowercasing, as `str.lower()` behaves on the flag values this
program compares (they are all ASCII). -/
def lowerStr (s : String) : String :=
  String.mk (s.data.map Char.toLower)

/-- `str_val.lower() in ("true", "1", "yes")`. -/
def pyTruthy (s : String) : Bool :=
  lowerStr s == "true" || lowerStr s == "1" || lowerStr s == "yes"

/-- Python whitespace stripped by numeric constructors. -/
def isPySpace (c : Char) : Bool :=
  c == ' ' || c == '\t' || c == '\n' || c == '\r' || c == '\x0b' || c == '\x0c'

/-- Strip leading and trailing whitespace. -/
def trimPy (cs : List Char) : List Char :=
  ((cs.dropWhile isPySpace).reverse.dropWhile isPySpace).reverse

/-- Numeric value of a digit string. -/
def natOfDigits (cs : List Char) : Nat :=
  cs.foldl (fun n c => 10 * n + (c.toNat - 48)) 0

/-- `int(s)`: optional surrounding whitespace, an optional sign and a
nonempty digit string (digit-group underscores, not exercised by any
claim, are treated as failures). -/
def pyInt? (s : String) : Option Int :=
  let cs := trimPy s.data
  let sd : Int × List Char :=
    match cs with
    | '-' :: t => (-1, t)
    | '+' :: t => (1, t)
    | _ => (1, cs)
  if sd.2 ≠ [] ∧ sd.2.all Char.isDigit then
    some (sd.1 * (natOfDigits sd.2 : Int))
  else none

/-- The optional exponent suffix of a float literal: nothing, or
`(e|E)[sign]digits`; returns the signed exponent. -/
def expSuffix? (cs : List Char) : Option Int :=
  match cs with
  | [] => some 0
  | c :: t =>
    if c = 'e' ∨ c = 'E' then
      let sd : Int × List Char :=
        match t with
        | '-' :: t2 => (-1, t2)
        | '+' :: t2 => (1, t2)
        | _ => (1, t)
      if sd.2 ≠ [] ∧ sd.2.all Char.isDigit then
        some (sd.1 * (natOfDigits sd.2 : Nat))
      else none
    else none

/-- `float(s)` on finite decimal literals: optional whitespace and sign,
digits with an optional fractional part, and an optional exponent
(`inf`/`nan` and digit-group underscores, which no claim exercises, are
treated as failures).  The exact value is returned as a `Dec`. -/
def pyFloat? (s : String) : Option Dec :=
  let cs := trimPy s.data
  let sd : Int × List Char :=
    match cs with
    | '-' :: t => (-1, t)
    | '+' :: t => (1, t)
    | _ => (1, cs)
  let ip := sd.2.takeWhile Char.isDigit
  let cs2 := sd.2.dropWhile Char.isDigit
  let fr : List Char × List Char :=
    match cs2 with
    | '.' :: t => (t.takeWhile Char.isDigit, t.dropWhile Char.isDigit)
    | _ => ([], cs2)
  if ip = [] ∧ fr.1 = [] then none
  else
    match expSuffix? fr.2 with
    | none => none
    | some e =>
      let mant : Int := sd.1 * (natOfDigits (ip ++ fr.1) : Nat)
      let net : Int := e - (fr.1.length : Int)
      if 0 ≤ net then some ⟨mant * (10 : Int) ^ net.toNat, 0⟩
      else some ⟨mant, (-net).toNat⟩

/-- `typ(str_val)` for the scalar types: identity for `str`, numeric
parsing for `float`/`int` (failure embeds the raised `ValueError`), and
truthiness of a nonempty string for `bool` (this last case is unreachable:
both call sites special-case the `bool` type before coercing). -/
def pyCoerce : Ty → String → Option PyVal
  | Ty.str, s => some (PyVal.vStr s)
  | Ty.float, s => (pyFloat? s).map PyVal.vFloat
  | Ty.int, s => (pyInt? s).map PyVal.vInt
  | Ty.bool, s => some (PyVal.vBool (s != ""))

/-! ## The two configuration channels -/

/-- `dict.setdefault(k, v)`. -/
def setdefault (tm : Dict Ty) (k : String) (v : Ty) : Dict Ty :=
  match dictGet tm k with
  | some _ => tm
  | none => dictInsert tm k v

/-- The reverse index of `_kwargs_from_cli`: parameter name to type, first
registration winning (`type_map.setdefault(name, typ)`). -/
def typeMapOf (pm : ParamMap) : Dict Ty :=
  pm.foldl (fun tm e => setdefault tm e.2.1 e.2.2) []

/-- Key resolution of `_kwargs_from_cli`: a key may be a flag (short or
long) or a bare parameter name looked up through the reverse index. -/
def resolveKey (pm : ParamMap) (key : String) : Option (String × Ty) :=
  match dictGet pm key with
  | some m => some m
  | none =>
    match dictGet (typeMapOf pm) key with
    | some t => some (key, t)
    | none => none

/-- One iteration of the `for key, str_val in self._kwargs.items()` loop of
`_kwargs_from_cli`, threading the produced dict and the warnings. -/
def cliStep (pm : ParamMap) (st : Dict PyVal × List String) (e : String × String) :
    Dict PyVal × List String :=
  match resolveKey pm e.1 with
  | none => st
  | some (pname, typ) =>
    if typ = Ty.bool then
      (dictInsert st.1 pname (PyVal.vBool (pyTruthy e.2)), st.2)
    else
      match pyCoerce typ e.2 with
      | some v => (dictInsert st.1 pname v, st.2)
      | none => (st.1, st.2 ++ ["無効なkwargs値: " ++ e.1 ++ "=" ++ e.2])

/-- `AudioNormalizePP._kwargs_from_cli`: returns the typed kwargs dict and
the recoverable warnings it reports. -/
def kwargsFromCli (pm : ParamMap) (raw : Dict String) : Dict PyVal × List String :=
  if raw = [] then ([], [])
  else raw.foldl (cliStep pm) ([], [])

/-- The token scan of `_kwargs_from_ppa`.  The Python loop pulls the value
of a non-boolean flag from the iterator inside the loop body; here that
in-flight state is the `pending` argument (the flag still awaiting its
value token), which is equivalent token-for-token. -/
def ppaLoop (pm : ParamMap) :
    Option (String × String × Ty) → Dict PyVal → List String → List String →
    Dict PyVal × List String
  | pending, acc, warns, [] =>
    match pending with
    | none => (acc, warns)
    | some (flag, _, _) =>
      (acc, warns ++ ["値が必要な引数の値がありません: " ++ flag])
  | pending, acc, warns, tok :: rest =>
    match pending with
    | some (flag, pname, typ) =>
      match pyCoerce typ tok with
      | some v => ppaLoop pm none (dictInsert acc pname v) warns rest
      | none =>
        ppaLoop pm none acc
          (warns ++ ["無効な引数値: " ++ flag ++ " " ++ tok]) rest
    | none =>
      match dictGet pm tok with
      | none => ppaLoop pm none acc warns rest
      | some (pname, typ) =>
        if typ = Ty.bool then
          ppaLoop pm none (dictInsert acc pname (PyVal.vBool true)) warns rest
        else ppaLoop pm (some (tok, pname, typ)) acc warns rest

/-- `AudioNormalizePP._kwargs_from_ppa`, as a function of the token list the
host passes for this postprocessor. -/
def kwargsFromPpa (pm : ParamMap) (args : List String) : Dict PyVal × List String :=
  ppaLoop pm none [] [] args

/-- `AudioNormalizePP._build_normalize_kwargs`: CLI kwargs as the base,
updated (overwritten key-by-key) by the PPA arguments. -/
def buildNormalizeKwargs (pm : ParamMap) (rawKwargs : Dict String)
    (ppaArgs : List String) : Dict PyVal × List String :=
  let cli := kwargsFromCli pm rawKwargs
  let ppa := kwargsFromPpa pm ppaArgs
  (updateDict cli.1 ppa.1, cli.2 ++ ppa.2)

/-! ## Concrete instance of the external constructor signature -/

/-- Modelled from the spec: the constructor signature of the external
normalizer (the `get_type_hints` input of `_build_param_map`) belongs to
the external library and is not part of this repository source tree.  The
entries here are the parameters the spec (sections 3, 4.2 and 8) and the
repository tests name, with the annotations they describe: a literal type
for the normalization type, plain scalars, optional scalars, and one
list-typed parameter excluded from the map.  The synthetic `return` entry
of `get_type_hints` is included. -/
def ffmpegHints : List (String × Hint) :=
  [("normalization_type", Hint.lit (PyLit.ls "ebu") [PyLit.ls "rms", PyLit.ls "peak"]),
   ("target_level", Hint.scalar Ty.float),
   ("print_stats", Hint.scalar Ty.bool),
   ("loudness_range_target", Hint.scalar Ty.float),
   ("true_peak", Hint.scalar Ty.float),
   ("dual_mono", Hint.scalar Ty.bool),
   ("audio_codec", Hint.unionOf [UHint.scalar Ty.str, UHint.noneType]),
   ("audio_bitrate", Hint.unionOf [UHint.scalar Ty.float, UHint.noneType]),
   ("sample_rate", Hint.unionOf [UHint.scalar Ty.int, UHint.noneType]),
   ("video_disable", Hint.scalar Ty.bool),
   ("extra_input_options", Hint.unionOf [UHint.listTy, UHint.noneType]),
   ("extension", Hint.scalar Ty.str),
   ("return", Hint.noneType)]

/-- The parameter map built from the modelled constructor signature. -/
def pmFF : ParamMap := buildParamMap ffmpegHints

/-! ## Default inference -/

/-- The file metadata keys consulted by default inference: container
extension, audio decoder name, sample rate and average bitrate, each
optional. -/
structure InfoMeta where
  ext : Option String
  acodec : Option String
  asr : Option Int
  abr : Option Dec
  deriving DecidableEq

/-- Modelled from the spec: `AudioNormalizePP._CODEC_MAP`, the decoder to
encoder name translation (section 4.5), is absent from the implementation
file under src/ (only the repository tests reference it). -/
def CODEC_MAP : Dict String :=
  [("opus", "libopus"), ("vorbis", "libvorbis"), ("mp3", "libmp3lame")]

/-- Integer part of a `Dec`, floored toward the integer below as section
4.5 of the spec states. -/
def decFloorNum (d : Dec) : Int :=
  Int.fdiv d.mant ((10 : Int) ^ d.dexp)

/-- Modelled from the spec: `AudioNormalizePP._infer_defaults` (section
4.5) is absent from the implementation file under src/ (only the
repository tests reference it).  Rules: extension from the container
extension verbatim; audio codec from the decoder name through `CODEC_MAP`
unless the sentinel `"none"`; sample rate from metadata with fallback
48000; audio bitrate as the floored integer part with a `k` suffix, only
when the average bitrate is present. -/
def inferDefaults (info : InfoMeta) : Dict PyVal :=
  let d0 : Dict PyVal := []
  let d1 :=
    match info.ext with
    | some e => dictInsert d0 "extension" (PyVal.vStr e)
    | none => d0
  let d2 :=
    match info.acodec with
    | some c =>
      if c = "none" then d1
      else dictInsert d1 "audio_codec" (PyVal.vStr ((dictGet CODEC_MAP c).getD c))
    | none => d1
  let d3 := dictInsert d2 "sample_rate" (PyVal.vInt (info.asr.getD 48000))
  match info.abr with
  | some q =>
    dictInsert d3 "audio_bitrate" (PyVal.vStr (toString (decFloorNum q) ++ "k"))
  | none => d3

/-- Modelled from the spec: the layered merge of section 4.6 (defaults,
overwritten by the CLI kwargs channel, overwritten by the PPA argument
channel) is absent from the implementation file under src/, whose
`_build_normalize_kwargs` merges only the two user channels. -/
def effectiveKwargs (pm : ParamMap) (info : InfoMeta) (raw : Dict String)
    (args : List String) : Dict PyVal :=
  updateDict (updateDict (inferDefaults info) (kwargsFromCli pm raw).1)
    (kwargsFromPpa pm args).1

/-! ## File normalizer and entry point -/

/-- Outcome of the `try` body of `_normalize_file` (the external
normalizer construction, registration and run, and the file move), which
the embedding takes as an oracle input: success produces the normalized
output bytes, otherwise the body raises a normalization-domain error, a
filesystem error, or some other exception. -/
inductive InvokeResult where
  | ok (out : String)
  | ffmpegNormalizeError (msg : String)
  | osError (msg : String)
  | otherError (msg : String)
  deriving DecidableEq

/-- Result of one `_normalize_file` call: the file system (a path to
contents dict), the recoverable warnings, the screen notices, and the
exception propagated to the caller, if any. -/
structure NormOut where
  fs : Dict String
  warnings : List String
  screen : List String
  raised : Option String
  deriving DecidableEq

/-- `path.name`: the part of the path after the last slash. -/
def baseName (p : String) : String :=
  String.mk (p.data.foldl (fun acc c => if c = '/' then [] else acc ++ [c]) [])

/-- `AudioNormalizePP._normalize_file`.  `mkstemp` is modelled by `allocOk`
(whether temp-file creation succeeds) and the fresh name `tmpPath` it
returns; on success it creates an empty file.  On a successful invocation
the normalized output lands in the temp file and `shutil.move` renames it
over the original; `FFmpegNormalizeError` and `OSError` are caught with a
warning; any other exception propagates (`raised`); the `finally` block
unlinks the temp file with `missing_ok=True` on every path. -/
def normalizeFile (fs0 : Dict String) (filepath tmpPath : String)
    (allocOk : Bool) (inv : InvokeResult) : NormOut :=
  match dictGet fs0 filepath with
  | none => ⟨fs0, ["ファイルが存在しません: " ++ filepath], [], none⟩
  | some _ =>
    let screen0 := ["音量の正規化を開始: " ++ baseName filepath]
    if allocOk = false then
      ⟨fs0, ["一時ファイルの作成に失敗しました"], screen0, none⟩
    else
      let fs1 := dictInsert fs0 tmpPath ""
      match inv with
      | InvokeResult.ok out =>
        let fs2 := dictInsert fs1 tmpPath out
        let fs3 := dictInsert (dictRemove fs2 tmpPath) filepath out
        ⟨dictRemove fs3 tmpPath, [],
          screen0 ++ ["音量の正規化が完了: " ++ baseName filepath], none⟩
      | InvokeResult.ffmpegNormalizeError m =>
        ⟨dictRemove fs1 tmpPath, ["音量の正規化に失敗しました: " ++ m], screen0, none⟩
      | InvokeResult.osError m =>
        ⟨dictRemove fs1 tmpPath, ["音量の正規化に失敗しました: " ++ m], screen0, none⟩
      | InvokeResult.otherError m =>
        ⟨dictRemove fs1 tmpPath, [], screen0, some m⟩

/-- `AudioNormalizePP.run`: look up `filepath` in the info dict, normalize
when it is present and truthy, and return the empty side-effect list
together with the info object itself. -/
def runPP (info : Dict String) (fs : Dict String) (tmpPath : String)
    (allocOk : Bool) (inv : InvokeResult) :
    (List String × Dict String) × NormOut :=
  match dictGet info "filepath" with
  | some fp =>
    if fp = "" then (([], info), ⟨fs, [], [], none⟩)
    else (([], info), normalizeFile fs fp tmpPath allocOk inv)
  | none => (([], info), ⟨fs, [], [], none⟩)

/-! ## Key uniqueness of the produced kwargs dicts -/

theorem nodupKeys_cliStep (pm : ParamMap) (st : Dict PyVal × List String)
    (e : String × String) (h : NodupKeys st.1) : NodupKeys (cliStep pm st e).1 := by
  unfold cliStep
  cases hr : resolveKey pm e.1 with
  | none => exact h
  | some entry =>
    obtain ⟨pname, typ⟩ := entry
    by_cases hb : typ = Ty.bool
    · simp only [if_pos hb]
      exact nodupKeys_insert st.1 pname _ h
    · simp only [if_neg hb]
      cases hc : pyCoerce typ e.2 with
      | some v => exact nodupKeys_insert st.1 pname v h
      | none => exact h

theorem nodupKeys_cliFold (pm : ParamMap) (raw : Dict String) :
    ∀ st : Dict PyVal × List String, NodupKeys st.1 →
      NodupKeys (raw.foldl (cliStep pm) st).1 := by
  induction raw with
  | nil => intro st h; exact h
  | cons e rest ih =>
    intro st h
    rw [List.foldl_cons]
    exact ih _ (nodupKeys_cliStep pm st e h)

theorem nodupKeys_kwargsFromCli (pm : ParamMap) (raw : Dict String) :
    NodupKeys (kwargsFromCli pm raw).1 := by
  unfold kwargsFromCli
  by_cases h : raw = []
  · simp [h, NodupKeys, keysOf]
  · simp only [if_neg h]
    exact nodupKeys_cliFold pm raw ([], []) (by simp [NodupKeys, keysOf])

theorem nodupKeys_ppaLoop (pm : ParamMap) (ts : List String) :
    ∀ pending acc warns, NodupKeys acc →
      NodupKeys (ppaLoop pm pending acc warns ts).1 := by
  induction ts with
  | nil =>
    intro pending acc warns h
    cases pending with
    | none => exact h
    | some p => obtain ⟨flag, pname, typ⟩ := p; exact h
  | cons tok rest ih =>
    intro pending acc warns h
    cases pending with
    | some p =>
      obtain ⟨flag, pname, typ⟩ := p
      simp only [ppaLoop]
      cases hc : pyCoerce typ tok with
      | some v =>
        simp only [hc]
        exact ih none _ warns (nodupKeys_insert acc pname v h)
      | none =>
        simp only [hc]
        exact ih none acc _ h
    | none =>
      simp only [ppaLoop]
      cases hm : dictGet pm tok with
      | none =>
        simp only [hm]
        exact ih none acc warns h
      | some entry =>
        obtain ⟨pname, typ⟩ := entry
        simp only [hm]
        by_cases hb : typ = Ty.bool
        · simp only [if_pos hb]
          exact ih none _ warns (nodupKeys_insert acc pname _ h)
        · simp only [if_neg hb]
          exact ih (some (tok, pname, typ)) acc warns h

theorem nodupKeys_kwargsFromPpa (pm : ParamMap) (args : List String) :
    NodupKeys (kwargsFromPpa pm args).1 :=
  nodupKeys_ppaLoop pm args none [] [] (by simp [NodupKeys, keysOf])

/-! ## Claims -/

/-- C1: the effective keyword-argument set built by
`_build_normalize_kwargs` is the kwargs-channel dict overwritten
key-by-key by the PPA argument-string-channel dict, with later-wins
semantics: every key bound by the PPA channel takes its PPA value, and
every other key keeps its kwargs-channel value. -/
theorem buildNormalizeKwargs_ppa_overrides_cli (pm : ParamMap)
    (raw : Dict String) (args : List String) (k : String) :
    dictGet (buildNormalizeKwargs pm raw args).1 k =
      optOr (dictGet (kwargsFromPpa pm args).1 k)
        (dictGet (kwargsFromCli pm raw).1 k) := by
  have h := dictGet_updateDict (kwargsFromCli pm raw).1 (kwargsFromPpa pm args).1
    k (nodupKeys_kwargsFromPpa pm args)
  simpa [buildNormalizeKwargs] using h

/-- C2: default inference is deterministic — empty metadata yields exactly
a 48000 sample rate; the opus example yields the translated codec, the
metadata sample rate and the `128k` bitrate; a fractional average bitrate
of 128.5 is floored to `128k` — and it forms the lowest-precedence layer
of the effective keyword arguments: any key bound by either user channel
keeps its user value in the layered merge. -/
theorem inferDefaults_deterministic_lowest_layer (pm : ParamMap)
    (info : InfoMeta) (raw : Dict String) (args : List String) (k : String)
    (v : PyVal)
    (h : dictGet (buildNormalizeKwargs pm raw args).1 k = some v) :
    inferDefaults ⟨none, none, none, none⟩ = [("sample_rate", PyVal.vInt 48000)] ∧
    inferDefaults ⟨some "opus", some "opus", some 44100, some ⟨1280, 1⟩⟩ =
      [("extension", PyVal.vStr "opus"), ("audio_codec", PyVal.vStr "libopus"),
       ("sample_rate", PyVal.vInt 44100), ("audio_bitrate", PyVal.vStr "128k")] ∧
    dictGet (inferDefaults ⟨some "mp3", some "mp3", none, some ⟨1285, 1⟩⟩)
        "audio_bitrate" = some (PyVal.vStr "128k") ∧
    dictGet (effectiveKwargs pm info raw args) k = some v := by
  refine ⟨by decide, by decide, by decide, ?_⟩
  have hppa := nodupKeys_kwargsFromPpa pm args
  have hcli := nodupKeys_kwargsFromCli pm raw
  have h2 : dictGet (buildNormalizeKwargs pm raw args).1 k =
      optOr (dictGet (kwargsFromPpa pm args).1 k)
        (dictGet (kwargsFromCli pm raw).1 k) := by
    simpa [buildNormalizeKwargs] using
      dictGet_updateDict (kwargsFromCli pm raw).1 (kwargsFromPpa pm args).1 k hppa
  have h3 : dictGet (effectiveKwargs pm info raw args) k =
      optOr (dictGet (kwargsFromPpa pm args).1 k)
        (optOr (dictGet (kwargsFromCli pm raw).1 k)
          (dictGet (inferDefaults info) k)) := by
    unfold effectiveKwargs
    rw [dictGet_updateDict _ _ k hppa, dictGet_updateDict _ _ k hcli]
  rw [h2] at h
  rw [h3]
  cases hp : dictGet (kwargsFromPpa pm args).1 k with
  | some w =>
    rw [hp] at h
    simpa [optOr] using h
  | none =>
    rw [hp] at h
    simp only [optOr] at h
    simp [optOr, h]

/-- Witness for C2 at the precedence example of the spec: kwargs
`target_level=-14.0` plus tokens `-t -20.0` bind the parameter to `-20.0`
both in `_build_normalize_kwargs` and in the layered effective kwargs. -/
theorem inferDefaults_deterministic_lowest_layer_witness :
    dictGet (buildNormalizeKwargs pmFF [("target_level", "-14.0")]
        ["-t", "-20.0"]).1 "target_level" = some (PyVal.vFloat ⟨-200, 1⟩) ∧
    dictGet (effectiveKwargs pmFF ⟨none, none, none, none⟩
        [("target_level", "-14.0")] ["-t", "-20.0"]) "target_level"
      = some (PyVal.vFloat ⟨-200, 1⟩) :=
  ⟨by decide,
   (inferDefaults_deterministic_lowest_layer pmFF ⟨none, none, none, none⟩
      [("target_level", "-14.0")] ["-t", "-20.0"] "target_level"
      (PyVal.vFloat ⟨-200, 1⟩) (by decide)).2.2.2⟩

/-! ## Shape of the parameter-map keys -/

theorem data_append_dashes (x : String) :
    ("--" ++ x).data = '-' :: '-' :: x.data := by
  cases x
  rfl

theorem isLongKey_longFlag (n : String) : isLongKey (longFlag n) = true := by
  unfold longFlag isLongKey
  rw [data_append_dashes]
  rfl

theorem startsDash_longFlag (n : String) : startsDash (longFlag n) = true := by
  unfold longFlag startsDash firstChar
  rw [data_append_dashes]
  rfl

theorem not_isLongKey_of_isShortKey (a : String) (ha : isShortKey a = true) :
    isLongKey a = false := by
  unfold isShortKey at ha
  unfold isLongKey
  cases hd : a.data with
  | nil => simp [hd] at ha
  | cons c0 t =>
    cases t with
    | nil => simp [hd] at ha
    | cons c1 t2 =>
      simp only [hd] at ha ⊢
      simp only [Bool.and_eq_true, beq_iff_eq, bne_iff_ne] at ha
      simp [ha.1, ha.2]

theorem startsDash_of_isShortKey (a : String) (ha : isShortKey a = true) :
    startsDash a = true := by
  unfold isShortKey at ha
  unfold startsDash firstChar
  cases hd : a.data with
  | nil => rw [hd] at ha; cases ha
  | cons c0 t =>
    cases t with
    | nil => rw [hd] at ha; cases ha
    | cons c1 t2 =>
      rw [hd] at ha
      simp only [Bool.and_eq_true, beq_iff_eq, bne_iff_ne] at ha
      simp [ha.1]

theorem startsDash_of_isLongKey (a : String) (ha : isLongKey a = true) :
    startsDash a = true := by
  unfold isLongKey at ha
  unfold startsDash firstChar
  cases hd : a.data with
  | nil => rw [hd] at ha; cases ha
  | cons c0 t =>
    cases t with
    | nil => rw [hd] at ha; cases ha
    | cons c1 t2 =>
      rw [hd] at ha
      simp only [Bool.and_eq_true, beq_iff_eq] at ha
      simp [ha.1]

theorem shortKey_ne_longKey (a b : String) (ha : isShortKey a = true)
    (hb : isLongKey b = true) : a ≠ b := by
  intro he
  subst he
  rw [not_isLongKey_of_isShortKey a ha] at hb
  cases hb

/-- All keys of a dict satisfy a boolean predicate. -/
def KeysP {α : Type} (P : String → Bool) (d : Dict α) : Prop :=
  ∀ k, (dictGet d k).isSome = true → P k = true

theorem keysP_nil {α : Type} (P : String → Bool) : KeysP (α := α) P [] := by
  intro k h
  simp [dictGet] at h

theorem keysP_insert {α : Type} (P : String → Bool) (d : Dict α)
    (k : String) (v : α) (hd : KeysP P d) (hk : P k = true) :
    KeysP P (dictInsert d k v) := by
  intro k' h
  by_cases he : k' = k
  · subst he; exact hk
  · rw [dictGet_insert_ne d k k' v he] at h
    exact hd k' h

theorem keysP_phase1Go (P : String → Bool)
    (hP : ∀ n, P (longFlag n) = true) :
    ∀ hints pm, KeysP P pm → KeysP P (phase1Go hints pm) := by
  intro hints
  induction hints with
  | nil => intro pm h; exact h
  | cons e rest ih =>
    intro pm h
    obtain ⟨pname, hint⟩ := e
    simp only [phase1Go]
    apply ih
    by_cases hr : pname = "return"
    · simp only [if_pos hr]; exact h
    · simp only [if_neg hr]
      cases hx : extractScalarType hint with
      | none => exact h
      | some st => exact keysP_insert P pm _ _ h (hP pname)

theorem keysP_phase2Go (P : String → Bool) :
    ∀ sf pm, (∀ p ∈ sf, P p.1 = true) → KeysP P pm →
      KeysP P (phase2Go sf pm) := by
  intro sf
  induction sf with
  | nil => intro pm _ h; exact h
  | cons e rest ih =>
    intro pm hsf h
    obtain ⟨flag, pname⟩ := e
    simp only [phase2Go]
    apply ih _ (fun p hp => hsf p (List.mem_cons_of_mem _ hp))
    cases hm : dictGet pm (longFlag pname) with
    | none => exact h
    | some entry =>
      exact keysP_insert P pm flag entry h (hsf (flag, pname) (List.mem_cons_self _ _))

theorem keysP_long_phase1 (hints : List (String × Hint)) :
    KeysP isLongKey (phase1Go hints []) :=
  keysP_phase1Go isLongKey isLongKey_longFlag hints [] (keysP_nil isLongKey)

theorem shortFlags_all_short : ∀ p ∈ SHORT_FLAGS, isShortKey p.1 = true := by
  decide

theorem shortFlags_keys_nodup : (SHORT_FLAGS.map Prod.fst).Nodup := by
  decide

theorem keysP_dash_buildParamMap (hints : List (String × Hint)) :
    KeysP startsDash (buildParamMap hints) := by
  unfold buildParamMap
  apply keysP_phase2Go startsDash SHORT_FLAGS
  · intro p hp
    exact startsDash_of_isShortKey p.1 (shortFlags_all_short p hp)
  · intro k h
    exact startsDash_of_isLongKey k (keysP_long_phase1 hints k h)

/-! ## Stability of phase-two lookups -/

theorem phase2Go_get_stable :
    ∀ sf (pm : ParamMap) (k : String), (∀ p ∈ sf, p.1 ≠ k) →
      dictGet (phase2Go sf pm) k = dictGet pm k := by
  intro sf
  induction sf with
  | nil => intro pm k _; rfl
  | cons e rest ih =>
    intro pm k hk
    obtain ⟨flag, pname⟩ := e
    simp only [phase2Go]
    rw [ih _ k (fun p hp => hk p (List.mem_cons_of_mem _ hp))]
    cases hm : dictGet pm (longFlag pname) with
    | none => rfl
    | some entry =>
      exact dictGet_insert_ne pm flag k entry
        (fun hh => hk (flag, pname) (List.mem_cons_self _ _) hh.symm)

theorem phase2Go_get_long :
    ∀ sf (pm : ParamMap) (l : String), isLongKey l = true →
      (∀ p ∈ sf, isShortKey p.1 = true) →
      dictGet (phase2Go sf pm) l = dictGet pm l := by
  intro sf
  induction sf with
  | nil => intro pm l _ _; rfl
  | cons e rest ih =>
    intro pm l hl hsf
    obtain ⟨flag, pname⟩ := e
    simp only [phase2Go]
    rw [ih _ l hl (fun p hp => hsf p (List.mem_cons_of_mem _ hp))]
    cases hm : dictGet pm (longFlag pname) with
    | none => rfl
    | some entry =>
      exact dictGet_insert_ne pm flag l entry
        (shortKey_ne_longKey flag l (hsf (flag, pname) (List.mem_cons_self _ _)) hl).symm

theorem phase2Go_consistent :
    ∀ sf (pm : ParamMap) (flag pname : String), (flag, pname) ∈ sf →
      (∀ p ∈ sf, isShortKey p.1 = true) → (sf.map Prod.fst).Nodup →
      dictGet pm flag = none →
      dictGet (phase2Go sf pm) flag = dictGet (phase2Go sf pm) (longFlag pname) := by
  intro sf
  induction sf with
  | nil => intro pm flag pname hmem; cases hmem
  | cons e rest ih =>
    intro pm flag pname hmem hshort hnodup hflag
    obtain ⟨f0, n0⟩ := e
    simp only [List.map_cons, List.nodup_cons] at hnodup
    have hrest_short : ∀ p ∈ rest, isShortKey p.1 = true :=
      fun p hp => hshort p (List.mem_cons_of_mem _ hp)
    rcases List.mem_cons.1 hmem with heq | hmem2
    · cases heq
      simp only [phase2Go]
      have hnotin : ∀ p ∈ rest, p.1 ≠ flag := by
        intro p hp hpk
        exact hnodup.1 (hpk ▸ List.mem_map_of_mem Prod.fst hp)
      cases hm : dictGet pm (longFlag pname) with
      | some entry =>
        rw [phase2Go_get_stable rest _ flag hnotin,
          phase2Go_get_long rest _ (longFlag pname) (isLongKey_longFlag pname)
            hrest_short,
          dictGet_insert_self,
          dictGet_insert_ne pm flag (longFlag pname) entry
            (shortKey_ne_longKey flag (longFlag pname)
              (hshort (flag, pname) (List.mem_cons_self _ _))
              (isLongKey_longFlag pname)).symm]
        exact hm.symm
      | none =>
        rw [phase2Go_get_stable rest _ flag hnotin,
          phase2Go_get_long rest _ (longFlag pname) (isLongKey_longFlag pname)
            hrest_short]
        rw [hflag, hm]
    · have hf0 : f0 ≠ flag := by
        intro hkeq
        apply hnodup.1
        have : flag ∈ rest.map Prod.fst :=
          List.mem_map_of_mem Prod.fst hmem2
        rw [hkeq]
        exact this
      simp only [phase2Go]
      apply ih _ flag pname hmem2 hrest_short hnodup.2
      cases hm : dictGet pm (longFlag n0) with
      | none => exact hflag
      | some entry =>
        rw [dictGet_insert_ne pm f0 flag entry (fun hh => hf0 hh.symm)]
        exact hflag

/-- C3: for every short flag of the short-flag table, the built map binds
the short flag and the corresponding long flag to identical entries
(same parameter name, same type); in particular a short flag whose long
flag is absent is itself absent.  In addition, every short-shaped key of
the map comes from the short-flag table. -/
theorem shortFlags_alias_longFlags (hints : List (String × Hint))
    (flag pname : String) (hmem : (flag, pname) ∈ SHORT_FLAGS) :
    dictGet (buildParamMap hints) flag = dictGet (buildParamMap hints) (longFlag pname) ∧
    (∀ k, isShortKey k = true → (dictGet (buildParamMap hints) k).isSome = true →
      k ∈ SHORT_FLAGS.map Prod.fst) := by
  constructor
  · unfold buildParamMap
    apply phase2Go_consistent SHORT_FLAGS _ flag pname hmem shortFlags_all_short
      shortFlags_keys_nodup
    have hs : isShortKey flag = true := shortFlags_all_short (flag, pname) hmem
    cases ho : dictGet (phase1Go hints []) flag with
    | none => rfl
    | some entry =>
      have hl : isLongKey flag = true :=
        keysP_long_phase1 hints flag (by rw [ho]; rfl)
      rw [not_isLongKey_of_isShortKey flag hs] at hl
      cases hl
  · intro k hk hsome
    by_contra hnot
    have hst : ∀ p ∈ SHORT_FLAGS, p.1 ≠ k := by
      intro p hp hpk
      exact hnot (hpk ▸ List.mem_map_of_mem Prod.fst hp)
    unfold buildParamMap at hsome
    rw [phase2Go_get_stable SHORT_FLAGS _ k hst] at hsome
    have hl : isLongKey k = true := keysP_long_phase1 hints k hsome
    rw [not_isLongKey_of_isShortKey k hk] at hl
    cases hl

/-- Witness for C3 at the `-t` short flag over the modelled constructor
signature. -/
theorem shortFlags_alias_longFlags_witness :
    dictGet (buildParamMap ffmpegHints) "-t" =
      dictGet (buildParamMap ffmpegHints) (longFlag "target_level") :=
  (shortFlags_alias_longFlags ffmpegHints "-t" "target_level" (by decide)).1

/-- C10: every key of the built parameter map begins with a dash, so a
value token that does not begin with a dash can never match the map, and
the token scan skips it without consuming the following token. -/
theorem paramMap_keys_dash_skip (hints : List (String × Hint))
    (k tok : String) (acc : Dict PyVal) (warns rest : List String)
    (hm : (dictGet (buildParamMap hints) k).isSome = true)
    (ht : firstChar tok ≠ some '-') :
    firstChar k = some '-' ∧
    dictGet (buildParamMap hints) tok = none ∧
    ppaLoop (buildParamMap hints) none acc warns (tok :: rest) =
      ppaLoop (buildParamMap hints) none acc warns rest := by
  have hall := keysP_dash_buildParamMap hints
  have h1 : firstChar k = some '-' := by
    have := hall k hm
    simpa [startsDash, beq_iff_eq] using this
  have h2 : dictGet (buildParamMap hints) tok = none := by
    cases ho : dictGet (buildParamMap hints) tok with
    | none => rfl
    | some e =>
      exact absurd (by simpa [startsDash, beq_iff_eq] using hall tok (by rw [ho]; rfl)) ht
  refine ⟨h1, h2, ?_⟩
  simp only [ppaLoop, h2]

/-- Witness for C10: the token `aac` is skipped by the scan over the map
built from the modelled constructor signature, while the key
`--target-level` of that map begins with a dash. -/
theorem paramMap_keys_dash_skip_witness :
    firstChar "--target-level" = some '-' ∧
    dictGet (buildParamMap ffmpegHints) "aac" = none ∧
    ppaLoop (buildParamMap ffmpegHints) none [] [] ["aac"] =
      ppaLoop (buildParamMap ffmpegHints) none [] [] [] :=
  paramMap_keys_dash_skip ffmpegHints "--target-level" "aac" [] [] []
    (by decide) (by decide)

/-- C5: a kwargs entry whose resolved type is boolean coerces to true
exactly when the lowercased value string is `true`, `1` or `yes`; every
other string coerces to false, and the processing step emits no warning
and no error for such an entry. -/
theorem cli_bool_coercion (pm : ParamMap) (st : Dict PyVal × List String)
    (key s pname : String)
    (h : resolveKey pm key = some (pname, Ty.bool)) :
    cliStep pm st (key, s) =
      (dictInsert st.1 pname (PyVal.vBool (pyTruthy s)), st.2) ∧
    (pyTruthy s = true ↔
      (lowerStr s = "true" ∨ lowerStr s = "1" ∨ lowerStr s = "yes")) := by
  constructor
  · simp [cliStep, h]
  · unfold pyTruthy
    simp only [Bool.or_eq_true, beq_iff_eq]
    tauto

/-- Witness for C5 at the unrecognized string `maybe` for the boolean
parameter `dual_mono` of the modelled map. -/
theorem cli_bool_coercion_witness :
    cliStep pmFF ([], []) ("dual_mono", "maybe") =
      (dictInsert [] "dual_mono" (PyVal.vBool (pyTruthy "maybe")), []) ∧
    (pyTruthy "maybe" = true ↔
      (lowerStr "maybe" = "true" ∨ lowerStr "maybe" = "1" ∨
        lowerStr "maybe" = "yes")) :=
  cli_bool_coercion pmFF ([], []) "dual_mono" "maybe" "dual_mono" (by decide)

/-- C6 counterexample: the token list `-c:a --target-level` ends in
`--target-level`, a recognized non-boolean flag of the map, yet the scan
emits no warning at all: the final token is consumed as the value of the
preceding flag and even produces an entry. -/
theorem ppa_dangling_flag_cex :
    dictGet pmFF "--target-level" = some ("target_level", Ty.float) ∧
    kwargsFromPpa pmFF ["-c:a", "--target-level"] =
      ([("audio_codec", PyVal.vStr "--target-level")], []) := by
  decide

/-- C6 (amended): when the token scan reaches a recognized non-boolean
(value-taking) flag as its final remaining token — that is, the flag was
not consumed as the value of a preceding flag — it emits exactly one
recoverable warning naming that flag, adds no entry for it, and leaves
the entries and warnings already produced unchanged. -/
theorem ppa_dangling_flag (pm : ParamMap) (acc : Dict PyVal)
    (warns : List String) (key pname : String) (typ : Ty)
    (hk : dictGet pm key = some (pname, typ)) (hb : typ ≠ Ty.bool) :
    ppaLoop pm none acc warns [key] =
      (acc, warns ++ ["値が必要な引数の値がありません: " ++ key]) := by
  simp [ppaLoop, hk, hb]

/-- Witness for C6 at the dangling token list `-t`. -/
theorem ppa_dangling_flag_witness :
    ppaLoop pmFF none [] [] ["-t"] =
      ([], ["値が必要な引数の値がありません: -t"]) :=
  ppa_dangling_flag pmFF [] [] "-t" "target_level" Ty.float
    (by decide) (by decide)

/-! ## Totality of the extractor -/

theorem unionScan_none_iff (hs : List UHint) :
    unionScan hs = none ↔ unionScanCollection hs = true := by
  induction hs with
  | nil => simp [unionScan, unionScanCollection]
  | cons h t ih =>
    by_cases hn : h = UHint.noneType
    · simp [unionScan, unionScanCollection, hn, ih]
    · simp only [unionScan, unionScanCollection, if_neg hn]
      cases h with
      | scalar t0 => simp [extractMember, memberCollection]
      | noneType => exact absurd rfl hn
      | otherClass => simp [extractMember, memberCollection]
      | lit v vs => simp [extractMember, memberCollection]
      | listTy => simp [extractMember, memberCollection]
      | otherGeneric => simp [extractMember, memberCollection]

/-- C7: the scalar-type extractor is pure and total over every
constructible annotation: it returns the null marker exactly for
collection-typed annotations, returns some scalar type on everything
else, and the unknown-class, non-type, sole-null-literal and
unknown-generic inputs all fall back to the string type. -/
theorem extractScalarType_total (h : Hint) :
    (extractScalarType h = none ↔ collectionTyped h = true) ∧
    (collectionTyped h = false → ∃ t : Ty, extractScalarType h = some t) ∧
    extractScalarType Hint.otherClass = some Ty.str ∧
    extractScalarType Hint.nonType = some Ty.str ∧
    extractScalarType (Hint.lit PyLit.lnone []) = some Ty.str ∧
    extractScalarType Hint.otherGeneric = some Ty.str := by
  have hiff : extractScalarType h = none ↔ collectionTyped h = true := by
    cases h <;>
      simp [extractScalarType, collectionTyped, unionScan_none_iff, litType]
  refine ⟨hiff, ?_, rfl, rfl, rfl, rfl⟩
  intro hc
  cases hx : extractScalarType h with
  | some t => exact ⟨t, rfl⟩
  | none =>
    rw [hiff.1 hx] at hc
    cases hc

/-- Witness for C7 at an optional float annotation. -/
theorem extractScalarType_total_witness :
    ∃ t : Ty, extractScalarType
      (Hint.unionOf [UHint.noneType, UHint.scalar Ty.float]) = some t :=
  (extractScalarType_total
    (Hint.unionOf [UHint.noneType, UHint.scalar Ty.float])).2.1 (by decide)

/-- C8 counterexample: `--dual-mono` is a flag of the map and the string
`false` coerces under the boolean rules, yet the two channels disagree:
the token channel records true without consuming the value, while the
kwargs channel maps the same parameter and the same string to false. -/
theorem roundTrip_channels_cex :
    dictGet pmFF "--dual-mono" = some ("dual_mono", Ty.bool) ∧
    (kwargsFromPpa pmFF ["--dual-mono", "false"]).1 =
      [("dual_mono", PyVal.vBool true)] ∧
    (kwargsFromCli pmFF [("dual_mono", "false")]).1 =
      [("dual_mono", PyVal.vBool false)] := by
  decide

/-- C8 (amended to value-taking flags): for every non-boolean flag of the
map whose parameter name is not itself a key of the map and resolves
through the reverse type index to the same type, and every value string
that coerces successfully to the flag's type, feeding flag and value as a
token pair and feeding the parameter name with the same string as a
kwargs entry yield the same parameter bound to the same typed value
(boolean flags are excluded: the token channel records true without
consuming any value for them). -/
theorem roundTrip_channels (pm : ParamMap) (flag pname v : String)
    (typ : Ty) (val : PyVal)
    (hf : dictGet pm flag = some (pname, typ))
    (hb : typ ≠ Ty.bool)
    (hc : pyCoerce typ v = some val)
    (hn : dictGet pm pname = none)
    (ht : dictGet (typeMapOf pm) pname = some typ) :
    kwargsFromPpa pm [flag, v] = ([(pname, val)], []) ∧
    kwargsFromCli pm [(pname, v)] = ([(pname, val)], []) := by
  constructor
  · unfold kwargsFromPpa
    simp [ppaLoop, hf, hb, hc, dictInsert]
  · unfold kwargsFromCli
    simp [cliStep, resolveKey, hn, ht, hb, hc, dictInsert]

/-- Witness for C8 at the `-t` flag with the value string `-14.0`. -/
theorem roundTrip_channels_witness :
    kwargsFromPpa pmFF ["-t", "-14.0"] =
      ([("target_level", PyVal.vFloat ⟨-140, 1⟩)], []) ∧
    kwargsFromCli pmFF [("target_level", "-14.0")] =
      ([("target_level", PyVal.vFloat ⟨-140, 1⟩)], []) :=
  roundTrip_channels pmFF "-t" "target_level" "-14.0" Ty.float
    (PyVal.vFloat ⟨-140, 1⟩) (by decide) (by decide) (by decide) (by decide)
    (by decide)

/-- C4: with the original file present and a fresh temp path, a
normalization-domain or filesystem error from the invocation leaves the
original file byte-for-byte unchanged, raises nothing, and emits one
recoverable warning containing the message; any other exception
propagates to the caller with the original file still unchanged; and on
every exit path — success included — the temp file is absent afterwards
(removing an already-absent temp file is no error). -/
theorem normalizeFile_safety (fs : Dict String) (filepath tmpPath c : String)
    (inv : InvokeResult)
    (hex : dictGet fs filepath = some c)
    (hne : tmpPath ≠ filepath) :
    (∀ m, inv = InvokeResult.ffmpegNormalizeError m ∨ inv = InvokeResult.osError m →
      dictGet (normalizeFile fs filepath tmpPath true inv).fs filepath = some c ∧
      (normalizeFile fs filepath tmpPath true inv).raised = none ∧
      (normalizeFile fs filepath tmpPath true inv).warnings =
        ["音量の正規化に失敗しました: " ++ m]) ∧
    (∀ m, inv = InvokeResult.otherError m →
      dictGet (normalizeFile fs filepath tmpPath true inv).fs filepath = some c ∧
      (normalizeFile fs filepath tmpPath true inv).raised = some m) ∧
    dictGet (normalizeFile fs filepath tmpPath true inv).fs tmpPath = none := by
  have hfp : filepath ≠ tmpPath := fun hh => hne hh.symm
  have hunchanged :
      dictGet (dictRemove (dictInsert fs tmpPath "") tmpPath) filepath = some c := by
    rw [dictGet_remove_ne _ tmpPath filepath hfp,
      dictGet_insert_ne fs tmpPath filepath _ hfp]
    exact hex
  cases inv with
  | ok out =>
    refine ⟨?_, ?_, ?_⟩
    · intro m hm
      rcases hm with hm | hm <;> cases hm
    · intro m hm
      cases hm
    · simp only [normalizeFile, hex]
      exact dictGet_remove_self _ tmpPath
  | ffmpegNormalizeError m0 =>
    refine ⟨?_, ?_, ?_⟩
    · intro m hm
      rcases hm with hm | hm
      · cases hm
        simp only [normalizeFile, hex]
        exact ⟨hunchanged, rfl, rfl⟩
      · cases hm
    · intro m hm
      cases hm
    · simp only [normalizeFile, hex]
      exact dictGet_remove_self _ tmpPath
  | osError m0 =>
    refine ⟨?_, ?_, ?_⟩
    · intro m hm
      rcases hm with hm | hm
      · cases hm
      · cases hm
        simp only [normalizeFile, hex]
        exact ⟨hunchanged, rfl, rfl⟩
    · intro m hm
      cases hm
    · simp only [normalizeFile, hex]
      exact dictGet_remove_self _ tmpPath
  | otherError m0 =>
    refine ⟨?_, ?_, ?_⟩
    · intro m hm
      rcases hm with hm | hm <;> cases hm
    · intro m hm
      cases hm
      simp only [normalizeFile, hex]
      exact ⟨hunchanged, rfl⟩
    · simp only [normalizeFile, hex]
      exact dictGet_remove_self _ tmpPath

/-- Witness for C4 at a one-file system and a failing invocation. -/
theorem normalizeFile_safety_witness :
    dictGet (normalizeFile [("a.mp4", "bytes")] "a.mp4" "tmp123.mp4" true
        (InvokeResult.ffmpegNormalizeError "boom")).fs "a.mp4" = some "bytes" ∧
    (normalizeFile [("a.mp4", "bytes")] "a.mp4" "tmp123.mp4" true
        (InvokeResult.ffmpegNormalizeError "boom")).raised = none ∧
    (normalizeFile [("a.mp4", "bytes")] "a.mp4" "tmp123.mp4" true
        (InvokeResult.ffmpegNormalizeError "boom")).warnings =
      ["音量の正規化に失敗しました: boom"] :=
  (normalizeFile_safety [("a.mp4", "bytes")] "a.mp4" "tmp123.mp4" "bytes"
    (InvokeResult.ffmpegNormalizeError "boom") (by decide) (by decide)).1
    "boom" (Or.inl rfl)

/-- C9: `run` returns the empty side-effect list together with the very
info record it received — structurally unchanged, no keys added, removed
or modified — whether or not normalization was attempted and however the
invocation turns out. -/
theorem run_returns_same_info (info fs : Dict String) (tmpPath : String)
    (allocOk : Bool) (inv : InvokeResult) :
    (runPP info fs tmpPath allocOk inv).1 = ([], info) := by
  unfold runPP
  cases h : dictGet info "filepath" with
  | none => rfl
  | some fp =>
    by_cases he : fp = ""
    · simp [he]
    · simp [he]

end AudioNormalize
